import Mathlib

/-!
Shallow embedding of the stringify direction of the sitepins mdx-parser
(src/core/stringify/markdownMarksHandler.ts and src/core/stringify/index.ts,
with src/next/stringify/index.ts), together with proofs about the
inline mark-merging algorithm, the block-element dispatch and the
stringifyMDX entry point.

Plate editor nodes are modelled by one inductive type `PNode`, mirroring the
runtime dispatch on the `type` string field of the source.  Mdast output
nodes are modelled by `MdPhrasing` (phrasing content) and `MdContent`
(block content).  Code that throws is modelled with `Except String`.
External collaborators that are not part of this repository
(mdast-util-to-markdown, the jsx attribute processor, the shortcode
stringifier) are supplied as a bundle of function parameters `ExtFns`.
Recursive functions whose recursion is not structural in the source are
written with an explicit fuel argument; the exported wrappers supply a
fuel bound derived from the node sizes that the recursion never exhausts.
-/

namespace MdxParser

/-- Inline formatting mark kinds, in their fixed declaration order
(strong, emphasis, inlineCode, delete) from the `MarkKind` type of
markdownMarksHandler.ts. -/
inductive MarkKind where
  | strong
  | emphasis
  | inlineCode
  | delete
deriving DecidableEq, Repr

/-- The boolean style flags carried by a Plate text leaf (`TextNode` in
markdownMarksHandler.ts); an absent flag is modelled as `false`. -/
structure TextFlags where
  bold : Bool := false
  italic : Bool := false
  code : Bool := false
  strikethrough : Bool := false
deriving DecidableEq, Repr

/-- Payload of the deferred `linkifyTextNode` callback.  In the source the
callback is a closure; the only closure ever stored is the one built by
`convertLinksToTextNodes`, which captures the link's url and title and wraps
a text node into a link, so it is modelled by its captured data. -/
structure Linkify where
  url : String
  title : Option String := none
deriving DecidableEq, Repr

/-- Plate editor nodes.  The source dispatches on the runtime `type` string
of an untyped node, so block and inline shapes live in a single type.
The `mdxJsxFlowElement` props bag is modelled by the fields the source
reads (the `align`/`tableRows` table encoding) plus an opaque string map
handed to the external serializer; `other` stands for any node whose
`type` string has no dispatch entry. -/
inductive PNode where
  | text (text : String) (flags : TextFlags) (linkifyTextNode : Option Linkify)
  | link (url : String) (title : Option String) (children : List PNode)
  | img (url : String) (alt : Option String) (caption : Option String)
  | brk
  | htmlInline (value : String)
  | mdxJsxTextElement (name : Option String) (props : List (String × String))
  | heading (depth : Fin 6) (children : List PNode)
  | p (children : List PNode)
  | codeBlock (lang : Option String) (value : String)
  | mdxJsxFlowElement (name : Option String)
      (align : Option (List (Option String)))
      (tableRows : List (List (Option PNode)))
      (props : List (String × String))
  | blockquote (children : List PNode)
  | hr
  | ol (children : List PNode)
  | ul (children : List PNode)
  | htmlBlock (value : String)
  | table (align : Option (List (Option String))) (children : List PNode)
  | tableRow (children : List PNode)
  | tableCell (children : List PNode)
  | li (children : List PNode)
  | lic (children : List PNode)
  | invalidMarkdown (value : String)
  | other (tag : String)

/-- The runtime `type` string of a Plate node, as the source's dispatch
switches see it. -/
def tagOf : PNode → String
  | .text _ _ _ => "text"
  | .link _ _ _ => "a"
  | .img _ _ _ => "img"
  | .brk => "break"
  | .htmlInline _ => "html_inline"
  | .mdxJsxTextElement _ _ => "mdxJsxTextElement"
  | .heading d _ => "h" ++ toString (d.val + 1)
  | .p _ => "p"
  | .codeBlock _ _ => "code_block"
  | .mdxJsxFlowElement _ _ _ _ => "mdxJsxFlowElement"
  | .blockquote _ => "blockquote"
  | .hr => "hr"
  | .ol _ => "ol"
  | .ul _ => "ul"
  | .htmlBlock _ => "html"
  | .table _ _ => "table"
  | .tableRow _ => "tableRow"
  | .tableCell _ => "tableCell"
  | .li _ => "li"
  | .lic _ => "lic"
  | .invalidMarkdown _ => "invalid_markdown"
  | .other tag => tag

/-- The `children` field of a Plate node, `none` when the node has no such
field (reading `.children` on it yields `undefined` in the source). -/
def childrenOf : PNode → Option (List PNode)
  | .link _ _ cs => some cs
  | .heading _ cs => some cs
  | .p cs => some cs
  | .blockquote cs => some cs
  | .ol cs => some cs
  | .ul cs => some cs
  | .table _ cs => some cs
  | .tableRow cs => some cs
  | .tableCell cs => some cs
  | .li cs => some cs
  | .lic cs => some cs
  | _ => none

/-- Mdast phrasing content (`Md.PhrasingContent`).  `wrapper` covers the
mark wrapper nodes the merge algorithm builds (`strong`, `emphasis`,
`delete`; the source would also build an `inlineCode` wrapper this way were
that branch reachable). -/
inductive MdPhrasing where
  | text (value : String)
  | inlineCode (value : String)
  | wrapper (mark : MarkKind) (children : List MdPhrasing)
  | link (url : String) (title : Option String) (children : List MdPhrasing)
  | image (url : String) (alt : Option String) (title : Option String)
  | brk
  | html (value : String)
  | mdxJsxTextElement (name : Option String) (attributes : List (String × String))
      (children : List MdPhrasing)

/-- Value of an mdx jsx attribute produced by the external prop serializer:
the directive branch only keeps attributes whose value is a truthy string. -/
inductive MdxAttrVal where
  | str (s : String)
  | expr
deriving DecidableEq, Repr

/-- An mdx jsx attribute node. -/
structure MdxAttr where
  name : String
  value : MdxAttrVal
deriving DecidableEq, Repr

/-- Mdast block-level content (`Md.Content`).  Table rows and cells carry no
extra data besides their children, so a table is modelled as its
align list plus a row-major list of cell contents. -/
inductive MdContent where
  | heading (depth : Nat) (children : List MdPhrasing)
  | paragraph (children : List MdPhrasing)
  | code (lang : Option String) (value : String)
  | blockquote (children : List MdContent)
  | thematicBreak
  | list (ordered : Bool) (spread : Bool) (children : List MdContent)
  | listItem (spread : Bool) (children : List MdContent)
  | html (value : String)
  | table (align : Option (List (Option String)))
      (rows : List (List (List MdPhrasing)))
  | mdxJsxFlowElement (name : Option String) (attributes : List MdxAttr)
      (children : List MdContent)
  | leafDirective (name : String) (attributes : List (String × String))
  | containerDirective (name : String) (attributes : List (String × String))
      (children : List MdContent)

/-- Mdast root node. -/
structure MdRoot where
  children : List MdContent

/-- Plate root element. -/
structure RootElement where
  children : List PNode

/-- The `parser` entry of a rich text field configuration. -/
structure ParserCfg where
  type : String
  skipEscaping : Option String := none
deriving DecidableEq, Repr

/-- A template's shortcode `match` pattern. -/
structure ShortcodeMatch where
  startDelim : String
  endDelim : String
  nameOverride : Option String := none
deriving DecidableEq, Repr

/-- A rich text template object. -/
structure RichTextTemplate where
  name : String
  matchPattern : Option ShortcodeMatch := none
deriving DecidableEq, Repr

/-- A member of the `templates` list: either a proper template object or a
bare string naming a global template. -/
inductive TemplateOrString where
  | str (s : String)
  | tpl (t : RichTextTemplate)
deriving DecidableEq, Repr

/-- Rich text field configuration (the parts the stringify path reads). -/
structure RichTextField where
  parser : Option ParserCfg := none
  templates : Option (List TemplateOrString) := none
deriving DecidableEq, Repr

/-- Result record of the external `serializeProps` (mdxAttributeSerializer). -/
structure SerializedMdxProps where
  children : List MdContent
  attributes : List MdxAttr
  useDirective : Bool
  directiveType : String

/-- External collaborators that are not part of this repository's stringify
sources: the jsx attribute processors, the mdast-to-markdown engine, the
shortcode stringifier, and the markdown-parser pipeline's renderer.  They
are opaque to every claim proved here and are passed in as parameters. -/
structure ExtFns where
  stringifyPropsInline : Option String → List (String × String) → RichTextField →
    (String → String) → List (String × String) × List MdPhrasing
  serializeMdxProps : Option String → List (String × String) → RichTextField →
    Bool → (String → String) → SerializedMdxProps
  toMarkdown : MdRoot → RichTextField → String
  stringifyShortcode : String → RichTextTemplate → String
  nextRender : RootElement → RichTextField → (String → String) → String

/-- A trivial instance of the external collaborators, used to evaluate the
embedding on concrete inputs. -/
def trivExt : ExtFns where
  stringifyPropsInline := fun _ _ _ _ => ([], [])
  serializeMdxProps := fun _ _ _ _ _ => ⟨[], [], false, ""⟩
  toMarkdown := fun _ _ => ""
  stringifyShortcode := fun s _ => s
  nextRender := fun _ _ _ => ""

/-- A sample field configuration with no parser override and no templates. -/
def sampleField : RichTextField where
  parser := none
  templates := none

/-- Number of style flags set on a text leaf (part of the termination
measure for the mark merge: removing a mark strictly shrinks it). -/
def flagsWeight (flags : TextFlags) : Nat :=
  (cond flags.bold 1 0) + (cond flags.italic 1 0) +
    (cond flags.code 1 0) + (cond flags.strikethrough 1 0)

mutual

/-- Size of a Plate node: one per node, plus the set style flags of a text
leaf.  Used to bound the recursion depth of the embedded functions. -/
def nodeSize : PNode → Nat
  | .text _ flags _ => 1 + flagsWeight flags
  | .link _ _ cs => 1 + sizeList cs
  | .heading _ cs => 1 + sizeList cs
  | .p cs => 1 + sizeList cs
  | .blockquote cs => 1 + sizeList cs
  | .ol cs => 1 + sizeList cs
  | .ul cs => 1 + sizeList cs
  | .table _ cs => 1 + sizeList cs
  | .tableRow cs => 1 + sizeList cs
  | .tableCell cs => 1 + sizeList cs
  | .li cs => 1 + sizeList cs
  | .lic cs => 1 + sizeList cs
  | _ => 1

/-- Total size of a list of Plate nodes. -/
def sizeList : List PNode → Nat
  | [] => 0
  | n :: rest => nodeSize n + sizeList rest

end

/-- getNodeMarks of markdownMarksHandler.ts: the marks of a node, empty
unless its type is exactly "text"; flags are read in the fixed order
bold, italic, code, strikethrough. -/
def getNodeMarks : PNode → List MarkKind
  | .text _ flags _ =>
      (cond flags.bold [MarkKind.strong] []) ++
      (cond flags.italic [MarkKind.emphasis] []) ++
      (cond flags.code [MarkKind.inlineCode] []) ++
      (cond flags.strikethrough [MarkKind.delete] [])
  | _ => []

/-- arrayMatches of markdownMarksHandler.ts: whether some element of the
first list occurs in the second. -/
def arrayMatches (a b : List MarkKind) : Bool :=
  a.any fun v => b.contains v

/-- The per-item rewrite of convertLinksToTextNodes: a link node whose
single child is a text node becomes a markable text node carrying the
deferred linkify callback (the child's own flags are not copied over by
the source, only its text). -/
def convertLinkToTextNode (item : PNode) : PNode :=
  match item with
  | .link url title [PNode.text t _ _] => .text t {} (some ⟨url, title⟩)
  | _ => item

/-- convertLinksToTextNodes of markdownMarksHandler.ts. -/
def convertLinksToTextNodes (nodes : List PNode) : List PNode :=
  nodes.map convertLinkToTextNode

/-- removeMarkFromNode of markdownMarksHandler.ts: drop the flag key
corresponding to the mark (strong maps to bold, emphasis to italic,
inlineCode to code, delete to strikethrough); every other key, including
the linkify callback, is copied unchanged, so a non-text node comes back
unmodified.  The source also stores a duplicate of the callback under an
extra `callback` key, which nothing ever reads. -/
def removeMarkFromNode (node : PNode) (mark : MarkKind) : PNode :=
  match node with
  | .text t flags lk =>
      .text t
        (match mark with
          | .strong => { flags with bold := false }
          | .emphasis => { flags with italic := false }
          | .inlineCode => { flags with code := false }
          | .delete => { flags with strikethrough := false })
        lk
  | n => n

/-- The inlined count loop of processInlineNodes (markdownMarksHandler.ts
lines 345-354): `count` starts at 1 and the `every` walk over the matching
siblings sets `count` to `index + 1` while the sibling carries the mark,
stopping at the first sibling that does not (a falsy callback result ends
`every`).  `index` is the zero-based position of the current sibling. -/
def markCountLoop (mark : MarkKind) : List PNode → Nat → Nat → Nat
  | [], _, count => count
  | sibling :: rest, index, count =>
      if (getNodeMarks sibling).contains mark then
        markCountLoop mark rest (index + 1) (index + 1)
      else count

/-- The count recorded for one mark over the matching siblings. -/
def markCountFor (mark : MarkKind) (matchingSiblings : List PNode) : Nat :=
  markCountLoop mark matchingSiblings 0 1

/-- markCounts of processInlineNodes: one count per mark of the first node,
in the order the marks were declared. -/
def markCounts (marks : List MarkKind) (matchingSiblings : List PNode) :
    List (MarkKind × Nat) :=
  marks.map fun mark => (mark, markCountFor mark matchingSiblings)

/-- The mark-selection loop of processInlineNodes (lines 355-364): walk the
counts in order, keeping the first entry that strictly exceeds the running
maximum, which starts at 0. -/
def selectMarkLoop : List (MarkKind × Nat) → Nat → Option MarkKind → Option MarkKind
  | [], _, selected => selected
  | (mark, markCount) :: rest, count, selected =>
      if markCount > count then selectMarkLoop rest markCount (some mark)
      else selectMarkLoop rest count selected

/-- The mark processInlineNodes picks from the counts (`markToProcess`). -/
def markWithHighestCount (counts : List (MarkKind × Nat)) : Option MarkKind :=
  selectMarkLoop counts 0 none

/-- nonMatchingSiblingIndex of processInlineNodes (lines 327-340): the
`every` walk over the tail records the index of the first sibling sharing
no mark with the head; when every sibling matches it is set to
`content.length - 1`, which equals the tail's length, so the whole
computation is the tail's find-index (with its not-found default). -/
def nonMatchingSiblingIndex (marks : List MarkKind) (rest : List PNode) : Nat :=
  rest.findIdx fun n => ! arrayMatches marks (getNodeMarks n)

/-- handleInlineNode of markdownMarksHandler.ts (lines 123-171): the direct
1:1 mapper for nodes that cannot merge into a mark run.  Link nodes are an
error here (they are handled earlier), a text node falls through to the
default case's isTextNode check, and any other type string is an
unsupported inline element. -/
def handleInlineNode (ext : ExtFns) (field : RichTextField)
    (imageCallback : String → String) (content : PNode) :
    Except String MdPhrasing :=
  match content with
  | .link _ _ _ =>
      .error "Unexpected node of type \"a\", link elements should be processed after all inline elements have resolved"
  | .img url alt caption => .ok (.image (imageCallback url) alt caption)
  | .brk => .ok .brk
  | .mdxJsxTextElement name props =>
      let r := ext.stringifyPropsInline name props field imageCallback
      .ok (.mdxJsxTextElement name r.1 r.2)
  | .htmlInline v => .ok (.html v)
  | .text t _ _ => .ok (.text t)
  | n => .error ("InlineElement: " ++ tagOf n ++ " is not supported")

/-- processInlineNodes of markdownMarksHandler.ts (lines 280-408), with an
explicit fuel argument standing in for the well-founded recursion (the
wrapper below supplies a bound the recursion never exhausts).  Each branch
mirrors the source: links surviving the pre-pass recurse into their
children; other non-text heads go through handleInlineNode; an unmarked
text head is emitted (through its linkify callback when present); a marked
head determines the matching sibling run, the mark counts and the selected
mark; inlineCode with a run past the head is the mark-conflict error, and
otherwise the selected mark wraps the head and matching siblings with that
mark stripped, recursing on the wrapped prefix and on the remainder
(`content.slice(idx + 1)`, written here as `rest.drop idx`). -/
def processInlineNodesGo (ext : ExtFns) (field : RichTextField)
    (imageCallback : String → String) :
    Nat → List PNode → Except String (List MdPhrasing)
  | 0, _ => .error "processInlineNodes: recursion fuel exhausted"
  | fuel + 1, c =>
    match convertLinksToTextNodes c with
    | [] => .ok []
    | first :: rest =>
      match first with
      | .link url title linkChildren => do
          let cs ← processInlineNodesGo ext field imageCallback fuel linkChildren
          let tail ← processInlineNodesGo ext field imageCallback fuel rest
          .ok (.link url title cs :: tail)
      | .text t _ linkify =>
          let marks := getNodeMarks first
          if marks.isEmpty then
            match linkify with
            | some l => do
                let tail ← processInlineNodesGo ext field imageCallback fuel rest
                .ok (.link l.url l.title [.text t] :: tail)
            | none => do
                let tail ← processInlineNodesGo ext field imageCallback fuel rest
                .ok (.text t :: tail)
          else
            let idx := nonMatchingSiblingIndex marks rest
            let matchingSiblings := rest.take idx
            match markWithHighestCount (markCounts marks matchingSiblings) with
            | none => do
                let tail ← processInlineNodesGo ext field imageCallback fuel rest
                .ok (.text t :: tail)
            | some MarkKind.inlineCode =>
                if idx ≠ 0 then
                  .error "Marks inside inline code are not supported"
                else
                  let node : MdPhrasing := .inlineCode t
                  let emitted := match linkify with
                    | some l => MdPhrasing.link l.url l.title [node]
                    | none => node
                  do
                    let tail ← processInlineNodesGo ext field imageCallback fuel
                      (rest.drop idx)
                    .ok (emitted :: tail)
            | some markToProcess => do
                let wrapped ← processInlineNodesGo ext field imageCallback fuel
                  ((first :: matchingSiblings).map
                    fun sibling => removeMarkFromNode sibling markToProcess)
                let tail ← processInlineNodesGo ext field imageCallback fuel
                  (rest.drop idx)
                .ok (.wrapper markToProcess wrapped :: tail)
      | _ => do
          let node ← handleInlineNode ext field imageCallback first
          let tail ← processInlineNodesGo ext field imageCallback fuel rest
          .ok (node :: tail)

/-- processInlineNodes with the fuel bound supplied (the recursion strictly
decreases the total node size, so the bound is never exhausted). -/
def processInlineNodes (ext : ExtFns) (field : RichTextField)
    (imageCallback : String → String) (c : List PNode) :
    Except String (List MdPhrasing) :=
  processInlineNodesGo ext field imageCallback (sizeList c + 1) c

/-- The cell-content access of the table branches:
`value?.children?.at(0)?.children || []`. -/
def cellContentChildren (value : Option PNode) : List PNode :=
  (do
    let v ← value
    let cs ← childrenOf v
    let c0 ← cs.head?
    childrenOf c0).getD []

/-- The three-part test of the paragraph branch of convertBlockElement
(lines 692-701): exactly one child, of type "text" (or typeless), whose
text is the empty string. -/
def isEmptyTextSingleton : List PNode → Bool
  | [PNode.text "" _ _] => true
  | _ => false

mutual

/-- convertListItemElement of core/stringify/index.ts (lines 856-878), with
fuel for the mutual recursion with convertBlockContentGo: each child of the
list item maps to a paragraph when it is the reserved inline-container kind
`lic`, and otherwise goes through the block-content dispatch.  Reading the
children of a childless node would be a runtime type error in the source
and is modelled as the empty list. -/
def convertListItemGo (ext : ExtFns) (field : RichTextField)
    (mapImageUrl : String → String) :
    Nat → PNode → Except String MdContent
  | 0, _ => .error "convertListItemElement: recursion fuel exhausted"
  | fuel + 1, plateListItem => do
      let items ← ((childrenOf plateListItem).getD []).mapM fun child =>
        match child with
        | .lic cs => do
            let xs ← processInlineNodes ext field mapImageUrl cs
            .ok (MdContent.paragraph xs)
        | _ => convertBlockContentGo ext field mapImageUrl fuel child
      .ok (.listItem false items)

/-- convertBlockContentElement of core/stringify/index.ts (lines 880-919),
with fuel for the mutual recursion: only blockquote, paragraph and the two
list kinds are mapped; everything else is an unsupported block-content
element. -/
def convertBlockContentGo (ext : ExtFns) (field : RichTextField)
    (mapImageUrl : String → String) :
    Nat → PNode → Except String MdContent
  | 0, _ => .error "convertBlockContentElement: recursion fuel exhausted"
  | fuel + 1, plateBlock =>
    match plateBlock with
    | .blockquote children => do
        let xs ← children.mapM (convertBlockContentGo ext field mapImageUrl fuel)
        .ok (.blockquote xs)
    | .p children => do
        let xs ← processInlineNodes ext field mapImageUrl children
        .ok (.paragraph xs)
    | .ol children => do
        let items ← children.mapM (convertListItemGo ext field mapImageUrl fuel)
        .ok (.list true false items)
    | .ul children => do
        let items ← children.mapM (convertListItemGo ext field mapImageUrl fuel)
        .ok (.list false false items)
    | n => .error ("BlockContentElement: " ++ tagOf n ++ " is not yet supported")

end

/-- convertListItemElement with its fuel bound supplied (the recursion
descends strictly into children, so the bound is never exhausted). -/
def convertListItemElement (ext : ExtFns) (field : RichTextField)
    (mapImageUrl : String → String) (plateListItem : PNode) :
    Except String MdContent :=
  convertListItemGo ext field mapImageUrl (nodeSize plateListItem + 1) plateListItem

/-- convertBlockContentElement with its fuel bound supplied. -/
def convertBlockContentElement (ext : ExtFns) (field : RichTextField)
    (mapImageUrl : String → String) (plateBlock : PNode) :
    Except String MdContent :=
  convertBlockContentGo ext field mapImageUrl (nodeSize plateBlock + 1) plateBlock

/-- convertBlockElement of core/stringify/index.ts (lines 663-854): the
block-level dispatch.  `none` is the dropped empty paragraph; every type
string without a case is an unsupported block element.  The
mdxJsxFlowElement named "table" decodes the component-encoded table from
its props; other flow components go through the external prop serializer
and are emitted as a directive or as a generic component. -/
def convertBlockElement (ext : ExtFns) (field : RichTextField)
    (mapImageUrl : String → String) (plateBlock : PNode) :
    Except String (Option MdContent) :=
  match plateBlock with
  | .heading depth children => do
      let xs ← processInlineNodes ext field mapImageUrl children
      .ok (some (.heading (depth.val + 1) xs))
  | .p children =>
      if isEmptyTextSingleton children then .ok none
      else do
        let xs ← processInlineNodes ext field mapImageUrl children
        .ok (some (.paragraph xs))
  | .codeBlock lang value => .ok (some (.code lang value))
  | .mdxJsxFlowElement name align tableRows props =>
      if name == some "table" then do
        let rows ← tableRows.mapM fun tableRowCells =>
          tableRowCells.mapM fun value =>
            processInlineNodes ext field mapImageUrl (cellContentChildren value)
        .ok (some (.table align rows))
      else
        let r := ext.serializeMdxProps name props field false mapImageUrl
        if r.useDirective then
          let shortcodeName := name.getD ""
          if shortcodeName == "" then
            .error "Expected shortcode to have a name but it was not defined"
          else
            let directiveAttributes := r.attributes.filterMap fun att =>
              match att.value with
              | .str s => if s == "" then none else some (att.name, s)
              | .expr => none
            if r.directiveType == "leaf" then
              .ok (some (.leafDirective shortcodeName directiveAttributes))
            else
              .ok (some (.containerDirective shortcodeName directiveAttributes
                r.children))
        else .ok (some (.mdxJsxFlowElement name r.attributes r.children))
  | .blockquote children => do
      let xs ← processInlineNodes ext field mapImageUrl children
      .ok (some (.blockquote [.paragraph xs]))
  | .hr => .ok (some .thematicBreak)
  | .ol children => do
      let items ← children.mapM (convertListItemElement ext field mapImageUrl)
      .ok (some (.list true false items))
  | .ul children => do
      let items ← children.mapM (convertListItemElement ext field mapImageUrl)
      .ok (some (.list false false items))
  | .htmlBlock value => .ok (some (.html value))
  | .img url alt caption =>
      .ok (some (.paragraph [.image (mapImageUrl url) alt caption]))
  | .table align children => do
      let rows ← children.mapM fun tableRowNode =>
        ((childrenOf tableRowNode).getD []).mapM fun tableCellNode =>
          processInlineNodes ext field mapImageUrl
            (cellContentChildren (some tableCellNode))
      .ok (some (.table align rows))
  | n => .error ("BlockElement: " ++ tagOf n ++ " is not yet supported")

/-- createMdastRoot of core/stringify/index.ts (lines 635-652): convert
each child and keep the non-null results. -/
def createMdastRoot (ext : ExtFns) (plateRoot : RootElement)
    (field : RichTextField) (mapImageUrl : String → String) :
    Except String MdRoot := do
  let nodes ← plateRoot.children.mapM (convertBlockElement ext field mapImageUrl)
  .ok ⟨nodes.reduceOption⟩

/-- convertToSitepinsMarkdown of core/stringify/index.ts (lines 573-626):
it collects the shortcode patterns and installs a custom text handler, then
hands the tree to the external mdast-util-to-markdown engine, which is
modelled by the `toMarkdown` parameter. -/
def convertToSitepinsMarkdown (ext : ExtFns) (mdastTree : MdRoot)
    (richTextType : RichTextField) : String :=
  ext.toMarkdown mdastTree richTextType

/-- Whether a templates entry survives the `template.match` filter of
stringifyMDX: a bare string always does, because a JS string's `match`
property is the built-in String.prototype.match function, which is truthy;
a template object does when it declares a match pattern. -/
def templateHasMatch : TemplateOrString → Bool
  | .str _ => true
  | .tpl t => t.matchPattern.isSome

/-- The template loop of stringifyMDX (lines 556-563): a bare-string
(global) template is a fatal configuration error; a template with a match
pattern rewrites the markdown through the external shortcode stringifier. -/
def applyShortcodeTemplates (ext : ExtFns) :
    List TemplateOrString → String → Except String String
  | [], processedMarkdown => .ok processedMarkdown
  | .str _ :: _, _ => .error "Global templates are not supported"
  | .tpl t :: rest, processedMarkdown =>
      applyShortcodeTemplates ext rest
        (if t.matchPattern.isSome then ext.stringifyShortcode processedMarkdown t
         else processedMarkdown)

/-- The runtime value passed as stringifyMDX's root argument: the source is
called with a tree, but also with null/undefined or a raw string. -/
inductive RootArg where
  | nul
  | str (s : String)
  | tree (root : RootElement)

/-- JS falsiness of the root argument (`!rootElement`): null, undefined and
the empty string are falsy; every object is truthy. -/
def rootFalsy : RootArg → Bool
  | .nul => true
  | .str s => s == ""
  | .tree _ => false

/-- The `richTextField.parser?.type === "markdown"` test of stringifyMDX. -/
def parserIsMarkdown (field : RichTextField) : Bool :=
  match field.parser with
  | some cfg => cfg.type == "markdown"
  | none => false

/-- The raw value of the root's first child when that child is the
invalid-markdown sentinel (`rootElement?.children[0].type ===
"invalid_markdown"` in stringifyMDX). -/
def firstInvalidValue (root : RootElement) : Option String :=
  match root.children with
  | PNode.invalidMarkdown v :: _ => some v
  | _ => none

/-- Modelled from the spec: the body of the markdown-parser stringify
pipeline.  The preProcess and toTinaMarkdown functions that
src/next/stringify/index.ts composes are not under src/, so this models
their contract: section 6 of the spec requires stringify to return the
invalid-markdown sentinel's raw value verbatim when it is the root's
single child; section 7(b) classes stringify of a raw string instead of a
tree as a fatal malformed call, modelled with the system's message for
that failure class; any other tree is re-serialized by the external
engine, modelled by the `nextRender` parameter. -/
def nextPipeline (ext : ExtFns) (value : RootArg) (field : RichTextField)
    (imageCallback : String → String) : Except String (Option String) :=
  match value with
  | .nul => .ok none
  | .str _ => .error "Expected an object to stringify, but received a string"
  | .tree root =>
      match root.children with
      | [PNode.invalidMarkdown v] => .ok (some v)
      | _ => .ok (some (ext.nextRender root field imageCallback))

/-- stringifyMDX of src/next/stringify/index.ts: a falsy root returns
undefined, otherwise the (modelled) preProcess/toTinaMarkdown pipeline
runs. -/
def stringifyMDXNext (ext : ExtFns) (value : RootArg) (field : RichTextField)
    (imageCallback : String → String) : Except String (Option String) :=
  if rootFalsy value then .ok none
  else nextPipeline ext value field imageCallback

/-- stringifyMDX of core/stringify/index.ts (lines 531-565): the markdown
parser type delegates to the next pipeline; a falsy root returns
undefined; a raw string is a malformed call; an invalid-markdown first
child is returned verbatim; otherwise the tree is converted, serialized,
and run through the shortcode template loop. -/
def stringifyMDX (ext : ExtFns) (rootElement : RootArg)
    (richTextField : RichTextField) (mapImageUrl : String → String) :
    Except String (Option String) :=
  if parserIsMarkdown richTextField then
    stringifyMDXNext ext rootElement richTextField mapImageUrl
  else if rootFalsy rootElement then .ok none
  else
    match rootElement with
    | .nul => .ok none
    | .str _ => .error "Expected an object to stringify, but received a string"
    | .tree root =>
      match firstInvalidValue root with
      | some v => .ok (some v)
      | none => do
          let mdastTree ← createMdastRoot ext root richTextField mapImageUrl
          let markdownString := convertToSitepinsMarkdown ext mdastTree richTextField
          let templatesWithPatterns :=
            (richTextField.templates.getD []).filter templateHasMatch
          let processedMarkdown ←
            applyShortcodeTemplates ext templatesWithPatterns markdownString
          .ok (some processedMarkdown)

/-- Whether a node is a plain text leaf: a text node with no pending
linkify callback. -/
def isPlainTextLeafB : PNode → Bool
  | .text _ _ none => true
  | _ => false

/-- Concatenation, in order, of the text of the text leaves of a Plate
sibling list. -/
def plateTextConcat : List PNode → String
  | [] => ""
  | PNode.text t _ _ :: rest => t ++ plateTextConcat rest
  | _ :: rest => plateTextConcat rest

mutual

/-- Concatenation, in order, of the values of the leaf text and inlineCode
nodes of an mdast phrasing tree. -/
def mdNodeText : MdPhrasing → String
  | .text v => v
  | .inlineCode v => v
  | .wrapper _ cs => mdListText cs
  | .link _ _ cs => mdListText cs
  | .mdxJsxTextElement _ _ cs => mdListText cs
  | _ => ""

/-- mdNodeText over a list. -/
def mdListText : List MdPhrasing → String
  | [] => ""
  | n :: rest => mdNodeText n ++ mdListText rest

end

section SizeLemmas

theorem nodeSize_pos (n : PNode) : 1 ≤ nodeSize n := by
  cases n <;> simp only [nodeSize] <;> omega

theorem sizeList_cons (n : PNode) (rest : List PNode) :
    sizeList (n :: rest) = nodeSize n + sizeList rest := rfl

theorem nodeSize_convertLinkToTextNode_le (n : PNode) :
    nodeSize (convertLinkToTextNode n) ≤ nodeSize n := by
  unfold convertLinkToTextNode
  split
  · simp only [nodeSize, sizeList, flagsWeight, Bool.cond_false]
    omega
  · exact le_refl _

theorem sizeList_convert_le (c : List PNode) :
    sizeList (convertLinksToTextNodes c) ≤ sizeList c := by
  induction c with
  | nil => exact le_refl _
  | cons n rest ih =>
      simp only [convertLinksToTextNodes, List.map_cons, sizeList]
      exact Nat.add_le_add (nodeSize_convertLinkToTextNode_le n) ih

theorem sizeList_take_le (idx : Nat) (c : List PNode) :
    sizeList (c.take idx) ≤ sizeList c := by
  induction c generalizing idx with
  | nil => simp [sizeList]
  | cons n rest ih =>
      cases idx with
      | zero => simp [sizeList]
      | succ k =>
          simp only [List.take_succ_cons, sizeList]
          exact Nat.add_le_add_left (ih k) _

theorem sizeList_drop_le (idx : Nat) (c : List PNode) :
    sizeList (c.drop idx) ≤ sizeList c := by
  induction c generalizing idx with
  | nil => simp [sizeList]
  | cons n rest ih =>
      cases idx with
      | zero => exact le_refl _
      | succ k =>
          simp only [List.drop_succ_cons, sizeList]
          calc sizeList (rest.drop k) ≤ sizeList rest := ih k
            _ ≤ nodeSize n + sizeList rest := Nat.le_add_left _ _

theorem nodeSize_removeMark_le (n : PNode) (m : MarkKind) :
    nodeSize (removeMarkFromNode n m) ≤ nodeSize n := by
  cases n with
  | text t flags lk =>
      rcases flags with ⟨b, i, cd, st⟩
      cases m <;> cases b <;> cases i <;> cases cd <;> cases st <;>
        simp [removeMarkFromNode, nodeSize, flagsWeight]
  | _ => exact le_refl _

theorem nodeSize_removeMark_lt (t : String) (flags : TextFlags)
    (lk : Option Linkify) (m : MarkKind)
    (h : m ∈ getNodeMarks (.text t flags lk)) :
    nodeSize (removeMarkFromNode (.text t flags lk) m) <
      nodeSize (.text t flags lk) := by
  rcases flags with ⟨b, i, cd, st⟩
  cases m <;> cases b <;> cases i <;> cases cd <;> cases st <;>
    simp_all [getNodeMarks, removeMarkFromNode, nodeSize, flagsWeight]

theorem sizeList_map_removeMark_le (m : MarkKind) (ms : List PNode) :
    sizeList (ms.map fun s => removeMarkFromNode s m) ≤ sizeList ms := by
  induction ms with
  | nil => exact le_refl _
  | cons n rest ih =>
      simp only [List.map_cons, sizeList]
      exact Nat.add_le_add (nodeSize_removeMark_le n m) ih

end SizeLemmas

/-- Consecutive-from-the-start count used by the spec's description of the
mark selection: how many nodes from the start of the list carry the mark
before the first one that does not. -/
def specConsecutiveCarry (mark : MarkKind) : List PNode → Nat
  | [] => 0
  | n :: rest =>
      if (getNodeMarks n).contains mark then specConsecutiveCarry mark rest + 1
      else 0

/-- Formalisation of the spec's words for the mark selection rule: select
the mark with the highest count, ties resolved by first-declared-wins over
the count list, which is built in the fixed priority order strong,
emphasis, inlineCode, delete. -/
def specHighestCountMark (counts : List (MarkKind × Nat)) : Option MarkKind :=
  (counts.find? fun p => p.2 == (counts.map Prod.snd).foldr Nat.max 0).map Prod.fst

/-- The maximum of the recorded counts. -/
def maxSnd (counts : List (MarkKind × Nat)) : Nat :=
  (counts.map Prod.snd).foldr Nat.max 0

section SelectionLemmas

theorem selectMarkLoop_mem : ∀ (counts : List (MarkKind × Nat)) (cur : Nat)
    (sel : Option MarkKind) (m : MarkKind),
    selectMarkLoop counts cur sel = some m →
    sel = some m ∨ m ∈ counts.map Prod.fst := by
  intro counts
  induction counts with
  | nil => intro cur sel m h; exact Or.inl h
  | cons q rest ih =>
      intro cur sel m h
      obtain ⟨mark, markCount⟩ := q
      simp only [selectMarkLoop] at h
      by_cases hgt : markCount > cur
      · rw [if_pos hgt] at h
        rcases ih _ _ _ h with h1 | h2
        · right
          simp only [Option.some_inj] at h1
          simp [h1]
        · right
          simp [h2]
      · rw [if_neg hgt] at h
        rcases ih _ _ _ h with h1 | h2
        · exact Or.inl h1
        · right
          simp [h2]

theorem markCounts_map_fst (marks : List MarkKind) (ms : List PNode) :
    (markCounts marks ms).map Prod.fst = marks := by
  simp only [markCounts, List.map_map]
  have hcomp : Prod.fst ∘ (fun mark => (mark, markCountFor mark ms)) =
      fun mark : MarkKind => mark := rfl
  rw [hcomp]
  exact List.map_id' marks

theorem selectMark_mem (marks : List MarkKind) (ms : List PNode) (m : MarkKind)
    (h : markWithHighestCount (markCounts marks ms) = some m) : m ∈ marks := by
  rcases selectMarkLoop_mem _ _ _ _ h with h1 | h2
  · exact absurd h1 (by simp)
  · rwa [markCounts_map_fst] at h2

theorem markCountLoop_eq (mark : MarkKind) : ∀ (ms : List PNode) (index count : Nat),
    markCountLoop mark ms index count =
      if specConsecutiveCarry mark ms = 0 then count
      else index + specConsecutiveCarry mark ms := by
  intro ms
  induction ms with
  | nil => intro i c; simp [markCountLoop, specConsecutiveCarry]
  | cons s rest ih =>
      intro i c
      simp only [markCountLoop, specConsecutiveCarry]
      by_cases hc : (getNodeMarks s).contains mark
      · rw [if_pos hc, if_pos hc, ih]
        by_cases h0 : specConsecutiveCarry mark rest = 0
        · simp [h0]
        · simp [h0]
          omega
      · rw [if_neg hc, if_neg hc]
        simp

theorem markCountFor_eq (mark : MarkKind) (ms : List PNode) :
    markCountFor mark ms = Nat.max 1 (specConsecutiveCarry mark ms) := by
  rw [markCountFor, markCountLoop_eq]
  rcases Nat.eq_zero_or_pos (specConsecutiveCarry mark ms) with h0 | h0
  · rw [if_pos h0, h0]
    exact (Nat.max_eq_left (Nat.zero_le 1)).symm
  · rw [if_neg (Nat.pos_iff_ne_zero.mp h0), Nat.zero_add]
    exact (Nat.max_eq_right h0).symm

theorem markCountFor_pos (mark : MarkKind) (ms : List PNode) :
    1 ≤ markCountFor mark ms := by
  rw [markCountFor_eq]
  exact Nat.le_max_left 1 _

theorem maxSnd_cons (q : MarkKind × Nat) (rest : List (MarkKind × Nat)) :
    maxSnd (q :: rest) = Nat.max q.2 (maxSnd rest) := rfl

theorem selectMarkLoop_eq_find : ∀ (counts : List (MarkKind × Nat)) (cur : Nat)
    (sel : Option MarkKind),
    selectMarkLoop counts cur sel =
      if maxSnd counts > cur then
        (counts.find? fun p => p.2 == maxSnd counts).map Prod.fst
      else sel := by
  intro counts
  induction counts with
  | nil =>
      intro cur sel
      simp [selectMarkLoop, maxSnd]
  | cons q rest ih =>
      intro cur sel
      obtain ⟨mark, c⟩ := q
      simp only [selectMarkLoop]
      rw [maxSnd_cons]
      by_cases hgt : c > cur
      · rw [if_pos hgt, ih]
        by_cases h2 : maxSnd rest > c
        · have hmax : Nat.max c (maxSnd rest) = maxSnd rest :=
            Nat.max_eq_right (Nat.le_of_lt h2)
          rw [if_pos h2, hmax, if_pos (Nat.lt_trans hgt h2)]
          have hne : (c == maxSnd rest) = false := by
            simp only [beq_eq_false_iff_ne, ne_eq]
            omega
          rw [List.find?_cons_of_neg _ (by simpa using hne)]
        · have hmax : Nat.max c (maxSnd rest) = c :=
            Nat.max_eq_left (Nat.le_of_not_lt h2)
          rw [if_neg h2, hmax, if_pos hgt]
          rw [List.find?_cons_of_pos _ (by simp)]
          rfl
      · rw [if_neg hgt, ih]
        by_cases h2 : maxSnd rest > cur
        · have hlt : c < maxSnd rest := by omega
          have hmax : Nat.max c (maxSnd rest) = maxSnd rest :=
            Nat.max_eq_right (Nat.le_of_lt hlt)
          rw [if_pos h2, hmax, if_pos h2]
          have hne : (c == maxSnd rest) = false := by
            simp only [beq_eq_false_iff_ne, ne_eq]
            omega
          rw [List.find?_cons_of_neg _ (by simpa using hne)]
        · have hmax : Nat.max c (maxSnd rest) ≤ cur :=
            Nat.max_le.mpr ⟨Nat.le_of_not_lt hgt, Nat.le_of_not_lt h2⟩
          rw [if_neg h2, if_neg (Nat.not_lt.mpr hmax)]

theorem markWithHighestCount_eq_spec (marks : List MarkKind) (ms : List PNode) :
    markWithHighestCount (markCounts marks ms) =
      specHighestCountMark (markCounts marks ms) := by
  rw [markWithHighestCount, selectMarkLoop_eq_find, specHighestCountMark]
  by_cases h : maxSnd (markCounts marks ms) > 0
  · rw [if_pos h]
    rfl
  · rw [if_neg h]
    cases marks with
    | nil => simp [markCounts]
    | cons m rest =>
        exfalso
        have h1 : 1 ≤ markCountFor m ms := markCountFor_pos m ms
        have h2 : maxSnd (markCounts (m :: rest) ms) =
            Nat.max (markCountFor m ms) (maxSnd (markCounts rest ms)) := rfl
        have h3 : markCountFor m ms ≤ maxSnd (markCounts (m :: rest) ms) := by
          rw [h2]
          exact Nat.le_max_left _ _
        omega

end SelectionLemmas

section ConvertLemmas

theorem isPlainTextLeafB_iff (n : PNode) :
    isPlainTextLeafB n = true ↔ ∃ t fl, n = PNode.text t fl none := by
  cases n
  case text t fl lk => cases lk <;> simp [isPlainTextLeafB]
  all_goals simp [isPlainTextLeafB]

theorem convertLinksToTextNodes_cons (n : PNode) (rest : List PNode) :
    convertLinksToTextNodes (n :: rest) =
      convertLinkToTextNode n :: convertLinksToTextNodes rest := rfl

theorem convert_eq_self_of_text (c : List PNode)
    (h : ∀ n ∈ c, isPlainTextLeafB n = true) :
    convertLinksToTextNodes c = c := by
  induction c with
  | nil => rfl
  | cons n rest ih =>
      rw [convertLinksToTextNodes_cons,
        ih fun x hx => h x (List.mem_cons_of_mem _ hx)]
      obtain ⟨t, fl, hn⟩ :=
        (isPlainTextLeafB_iff n).mp (h n (List.mem_cons_self _ _))
      rw [hn]
      rfl

theorem convertLinkToTextNode_idem (n : PNode) :
    convertLinkToTextNode (convertLinkToTextNode n) = convertLinkToTextNode n := by
  cases n <;> try rfl
  case link url title cs =>
    match cs with
    | [] => rfl
    | [c₀] => cases c₀ <;> rfl
    | c₀ :: c₁ :: r => cases c₀ <;> rfl

theorem convertLinksToTextNodes_idem (c : List PNode) :
    convertLinksToTextNodes (convertLinksToTextNodes c) =
      convertLinksToTextNodes c := by
  induction c with
  | nil => rfl
  | cons n rest ih =>
      rw [convertLinksToTextNodes_cons, convertLinksToTextNodes_cons, ih,
        convertLinkToTextNode_idem]

theorem processInlineNodesGo_convert (ext : ExtFns) (field : RichTextField)
    (cb : String → String) (fuel : Nat) (c : List PNode) :
    processInlineNodesGo ext field cb fuel (convertLinksToTextNodes c) =
      processInlineNodesGo ext field cb fuel c := by
  cases fuel with
  | zero => rfl
  | succ k => simp only [processInlineNodesGo, convertLinksToTextNodes_idem]

theorem plateTextConcat_cons_text (t : String) (fl : TextFlags)
    (lk : Option Linkify) (rest : List PNode) :
    plateTextConcat (PNode.text t fl lk :: rest) = t ++ plateTextConcat rest := rfl

theorem plateTextConcat_append (a b : List PNode) :
    plateTextConcat (a ++ b) = plateTextConcat a ++ plateTextConcat b := by
  induction a with
  | nil => simp [plateTextConcat]
  | cons n rest ih =>
      cases n <;> simp [plateTextConcat, ih, String.append_assoc]

theorem removeMark_text_eq (t : String) (fl : TextFlags) (lk : Option Linkify)
    (m : MarkKind) :
    ∃ fl2, removeMarkFromNode (PNode.text t fl lk) m = PNode.text t fl2 lk := by
  cases m <;> exact ⟨_, rfl⟩

theorem plateTextConcat_map_removeMark (m : MarkKind) (ms : List PNode) :
    plateTextConcat (ms.map fun s => removeMarkFromNode s m) =
      plateTextConcat ms := by
  induction ms with
  | nil => rfl
  | cons n rest ih =>
      rw [List.map_cons]
      cases n
      case text t fl lk =>
        obtain ⟨fl2, he⟩ := removeMark_text_eq t fl lk m
        rw [he, plateTextConcat_cons_text, plateTextConcat_cons_text, ih]
      all_goals exact ih

theorem isPlainTextLeafB_removeMark (n : PNode) (m : MarkKind) :
    isPlainTextLeafB (removeMarkFromNode n m) = isPlainTextLeafB n := by
  cases n
  case text t fl lk => cases lk <;> cases m <;> rfl
  all_goals rfl

theorem allText_map_removeMark (m : MarkKind) (ms : List PNode)
    (h : ∀ n ∈ ms, isPlainTextLeafB n = true) :
    ∀ n ∈ ms.map fun s => removeMarkFromNode s m, isPlainTextLeafB n = true := by
  intro n hn
  rw [List.mem_map] at hn
  obtain ⟨a, ha, rfl⟩ := hn
  rw [isPlainTextLeafB_removeMark]
  exact h a ha

end ConvertLemmas

section FuelLemmas

theorem sizeList_wrapper_lt (t : String) (fl : TextFlags) (lk : Option Linkify)
    (mk : MarkKind) (idx : Nat) (rest : List PNode) (c : List PNode)
    (hmem : mk ∈ getNodeMarks (PNode.text t fl lk))
    (hsz : nodeSize (PNode.text t fl lk) + sizeList rest ≤ sizeList c) :
    sizeList ((PNode.text t fl lk :: rest.take idx).map
      fun s => removeMarkFromNode s mk) < sizeList c := by
  have hlt := nodeSize_removeMark_lt t fl lk mk hmem
  have hmap := sizeList_map_removeMark_le mk (rest.take idx)
  have htake := sizeList_take_le idx rest
  have e1 : sizeList ((PNode.text t fl lk :: rest.take idx).map
      fun s => removeMarkFromNode s mk) =
        nodeSize (removeMarkFromNode (PNode.text t fl lk) mk) +
          sizeList ((rest.take idx).map fun s => removeMarkFromNode s mk) := rfl
  omega

theorem processInlineNodesGo_congr (ext : ExtFns) (field : RichTextField)
    (cb : String → String) :
    ∀ fuel₁ fuel₂ c, sizeList c < fuel₁ → sizeList c < fuel₂ →
      processInlineNodesGo ext field cb fuel₁ c =
        processInlineNodesGo ext field cb fuel₂ c := by
  intro fuel₁
  induction fuel₁ using Nat.strong_induction_on with
  | _ fuel₁ ih =>
    intro fuel₂ c h₁ h₂
    obtain ⟨a, rfl⟩ : ∃ a, fuel₁ = a + 1 := ⟨fuel₁ - 1, by omega⟩
    obtain ⟨b, rfl⟩ : ∃ b, fuel₂ = b + 1 := ⟨fuel₂ - 1, by omega⟩
    have ha : a < a + 1 := Nat.lt_succ_self a
    simp only [processInlineNodesGo]
    cases hc : convertLinksToTextNodes c with
    | nil => rfl
    | cons first rest =>
      have hsz : nodeSize first + sizeList rest ≤ sizeList c := by
        have h := sizeList_convert_le c
        rw [hc] at h
        simpa [sizeList] using h
      have hp := nodeSize_pos first
      cases first with
      | link url title linkChildren =>
          have hn : nodeSize (PNode.link url title linkChildren) =
              1 + sizeList linkChildren := rfl
          simp only []
          rw [ih a ha b linkChildren (by omega) (by omega),
            ih a ha b rest (by omega) (by omega)]
      | text t fl lk =>
          simp only []
          by_cases hm : (getNodeMarks (PNode.text t fl lk)).isEmpty
          · rw [if_pos hm, if_pos hm]
            cases lk with
            | some l =>
                simp only []
                rw [ih a ha b rest (by omega) (by omega)]
            | none =>
                simp only []
                rw [ih a ha b rest (by omega) (by omega)]
          · rw [if_neg hm, if_neg hm]
            cases hsel : markWithHighestCount
                (markCounts (getNodeMarks (PNode.text t fl lk))
                  (rest.take (nonMatchingSiblingIndex
                    (getNodeMarks (PNode.text t fl lk)) rest))) with
            | none =>
                simp only []
                rw [ih a ha b rest (by omega) (by omega)]
            | some mk =>
                have hdrop := sizeList_drop_le
                  (nonMatchingSiblingIndex (getNodeMarks (PNode.text t fl lk)) rest)
                  rest
                cases mk with
                | inlineCode =>
                    simp only []
                    by_cases h0 : nonMatchingSiblingIndex
                        (getNodeMarks (PNode.text t fl lk)) rest = 0
                    · rw [if_neg (by simp [h0]), if_neg (by simp [h0])]
                      cases lk with
                      | some l =>
                          simp only []
                          rw [ih a ha b _ (by omega) (by omega)]
                      | none =>
                          simp only []
                          rw [ih a ha b _ (by omega) (by omega)]
                    · rw [if_pos h0, if_pos h0]
                | strong =>
                    simp only []
                    have hmem := selectMark_mem _ _ _ hsel
                    have hwlt := sizeList_wrapper_lt t fl lk MarkKind.strong
                      (nonMatchingSiblingIndex (getNodeMarks (PNode.text t fl lk))
                        rest) rest c hmem hsz
                    rw [ih a ha b _ (by omega) (by omega),
                      ih a ha b _ (by omega) (by omega)]
                | emphasis =>
                    simp only []
                    have hmem := selectMark_mem _ _ _ hsel
                    have hwlt := sizeList_wrapper_lt t fl lk MarkKind.emphasis
                      (nonMatchingSiblingIndex (getNodeMarks (PNode.text t fl lk))
                        rest) rest c hmem hsz
                    rw [ih a ha b _ (by omega) (by omega),
                      ih a ha b _ (by omega) (by omega)]
                | delete =>
                    simp only []
                    have hmem := selectMark_mem _ _ _ hsel
                    have hwlt := sizeList_wrapper_lt t fl lk MarkKind.delete
                      (nonMatchingSiblingIndex (getNodeMarks (PNode.text t fl lk))
                        rest) rest c hmem hsz
                    rw [ih a ha b _ (by omega) (by omega),
                      ih a ha b _ (by omega) (by omega)]
      | img url alt caption =>
          simp only []
          rw [ih a ha b rest (by omega) (by omega)]
      | brk =>
          simp only []
          rw [ih a ha b rest (by omega) (by omega)]
      | htmlInline v =>
          simp only []
          rw [ih a ha b rest (by omega) (by omega)]
      | mdxJsxTextElement name props =>
          simp only []
          rw [ih a ha b rest (by omega) (by omega)]
      | heading depth cs =>
          simp only []
          rw [ih a ha b rest (by omega) (by omega)]
      | p cs =>
          simp only []
          rw [ih a ha b rest (by omega) (by omega)]
      | codeBlock lang v =>
          simp only []
          rw [ih a ha b rest (by omega) (by omega)]
      | mdxJsxFlowElement name align tableRows props =>
          simp only []
          rw [ih a ha b rest (by omega) (by omega)]
      | blockquote cs =>
          simp only []
          rw [ih a ha b rest (by omega) (by omega)]
      | hr =>
          simp only []
          rw [ih a ha b rest (by omega) (by omega)]
      | ol cs =>
          simp only []
          rw [ih a ha b rest (by omega) (by omega)]
      | ul cs =>
          simp only []
          rw [ih a ha b rest (by omega) (by omega)]
      | htmlBlock v =>
          simp only []
          rw [ih a ha b rest (by omega) (by omega)]
      | table align cs =>
          simp only []
          rw [ih a ha b rest (by omega) (by omega)]
      | tableRow cs =>
          simp only []
          rw [ih a ha b rest (by omega) (by omega)]
      | tableCell cs =>
          simp only []
          rw [ih a ha b rest (by omega) (by omega)]
      | li cs =>
          simp only []
          rw [ih a ha b rest (by omega) (by omega)]
      | lic cs =>
          simp only []
          rw [ih a ha b rest (by omega) (by omega)]
      | invalidMarkdown v =>
          simp only []
          rw [ih a ha b rest (by omega) (by omega)]
      | other tag =>
          simp only []
          rw [ih a ha b rest (by omega) (by omega)]

theorem processInlineNodesGo_eq (ext : ExtFns) (field : RichTextField)
    (cb : String → String) (fuel : Nat) (c : List PNode)
    (h : sizeList c < fuel) :
    processInlineNodesGo ext field cb fuel c = processInlineNodes ext field cb c :=
  processInlineNodesGo_congr ext field cb fuel (sizeList c + 1) c h
    (Nat.lt_succ_self _)

end FuelLemmas

theorem except_bind_ok_iff {α β : Type} (x : Except String α)
    (f : α → Except String β) (b : β) :
    (x >>= f) = .ok b ↔ ∃ a, x = .ok a ∧ f a = .ok b := by
  cases x <;> simp [Bind.bind, Except.bind]

section TextPreservation

theorem processInlineNodesGo_text_concat (ext : ExtFns) (field : RichTextField)
    (cb : String → String) :
    ∀ fuel c out, sizeList c < fuel →
      (∀ n ∈ c, isPlainTextLeafB n = true) →
      processInlineNodesGo ext field cb fuel c = .ok out →
      mdListText out = plateTextConcat c := by
  intro fuel
  induction fuel using Nat.strong_induction_on with
  | _ fuel ih =>
    intro c out hsz hall hok
    obtain ⟨a, rfl⟩ : ∃ a, fuel = a + 1 := ⟨fuel - 1, by omega⟩
    have ha : a < a + 1 := Nat.lt_succ_self a
    simp only [processInlineNodesGo] at hok
    rw [convert_eq_self_of_text c hall] at hok
    cases c with
    | nil =>
        simp only [Except.ok.injEq] at hok
        rw [← hok]
        rfl
    | cons first rest =>
      have hallrest : ∀ n ∈ rest, isPlainTextLeafB n = true :=
        fun n hn => hall n (List.mem_cons_of_mem _ hn)
      obtain ⟨t, fl, rfl⟩ :=
        (isPlainTextLeafB_iff first).mp (hall first (List.mem_cons_self _ _))
      have hrestsz : sizeList rest < a := by
        have hp := nodeSize_pos (PNode.text t fl none)
        have e : sizeList (PNode.text t fl none :: rest) =
            nodeSize (PNode.text t fl none) + sizeList rest := rfl
        omega
      try simp only [] at hok
      by_cases hm : (getNodeMarks (PNode.text t fl none)).isEmpty
      · rw [if_pos hm] at hok
        try simp only [] at hok
        rw [except_bind_ok_iff] at hok
        obtain ⟨tail, hrec, heq⟩ := hok
        simp only [Except.ok.injEq] at heq
        rw [← heq]
        have htail := ih a ha rest tail hrestsz hallrest hrec
        show t ++ mdListText tail = t ++ plateTextConcat rest
        rw [htail]
      · rw [if_neg hm] at hok
        cases hsel : markWithHighestCount
            (markCounts (getNodeMarks (PNode.text t fl none))
              (rest.take (nonMatchingSiblingIndex
                (getNodeMarks (PNode.text t fl none)) rest))) with
        | none =>
            rw [hsel] at hok
            try simp only [] at hok
            rw [except_bind_ok_iff] at hok
            obtain ⟨tail, hrec, heq⟩ := hok
            simp only [Except.ok.injEq] at heq
            rw [← heq]
            have htail := ih a ha rest tail hrestsz hallrest hrec
            show t ++ mdListText tail = t ++ plateTextConcat rest
            rw [htail]
        | some mk =>
            rw [hsel] at hok
            have hdropsz : sizeList (rest.drop (nonMatchingSiblingIndex
                (getNodeMarks (PNode.text t fl none)) rest)) < a := by
              have := sizeList_drop_le (nonMatchingSiblingIndex
                (getNodeMarks (PNode.text t fl none)) rest) rest
              omega
            have halldrop : ∀ n ∈ rest.drop (nonMatchingSiblingIndex
                (getNodeMarks (PNode.text t fl none)) rest),
                isPlainTextLeafB n = true :=
              fun n hn => hallrest n (List.mem_of_mem_drop hn)
            cases mk with
            | inlineCode =>
                try simp only [] at hok
                by_cases h0 : nonMatchingSiblingIndex
                    (getNodeMarks (PNode.text t fl none)) rest = 0
                · rw [if_neg (by simp [h0])] at hok
                  rw [h0, List.drop_zero] at hok
                  try simp only [] at hok
                  rw [except_bind_ok_iff] at hok
                  obtain ⟨tail, hrec, heq⟩ := hok
                  simp only [Except.ok.injEq] at heq
                  rw [← heq]
                  have htail := ih a ha rest tail hrestsz hallrest hrec
                  show t ++ mdListText tail = t ++ plateTextConcat rest
                  rw [htail]
                · rw [if_pos h0] at hok
                  exact absurd hok (by simp)
            | strong =>
                try simp only [] at hok
                rw [except_bind_ok_iff] at hok
                obtain ⟨wrapped, hwrec, hok⟩ := hok
                try simp only [] at hok
                rw [except_bind_ok_iff] at hok
                obtain ⟨tail, hrec, heq⟩ := hok
                simp only [Except.ok.injEq] at heq
                rw [← heq]
                have hmem := selectMark_mem _ _ _ hsel
                have hwsz := sizeList_wrapper_lt t fl none MarkKind.strong
                  (nonMatchingSiblingIndex (getNodeMarks (PNode.text t fl none))
                    rest) rest (PNode.text t fl none :: rest) hmem (le_refl _)
                have hallw : ∀ n ∈ (PNode.text t fl none ::
                    rest.take (nonMatchingSiblingIndex
                      (getNodeMarks (PNode.text t fl none)) rest)).map
                    (fun s => removeMarkFromNode s MarkKind.strong),
                    isPlainTextLeafB n = true := by
                  apply allText_map_removeMark
                  intro n hn
                  rcases List.mem_cons.mp hn with h | h
                  · rw [h]
                    rfl
                  · exact hallrest n (List.mem_of_mem_take h)
                have hw := ih a ha _ wrapped (by omega) hallw hwrec
                have ht := ih a ha _ tail hdropsz halldrop hrec
                show mdListText wrapped ++ mdListText tail =
                  t ++ plateTextConcat rest
                rw [hw, ht, plateTextConcat_map_removeMark,
                  plateTextConcat_cons_text, String.append_assoc,
                  ← plateTextConcat_append, List.take_append_drop]
            | emphasis =>
                try simp only [] at hok
                rw [except_bind_ok_iff] at hok
                obtain ⟨wrapped, hwrec, hok⟩ := hok
                try simp only [] at hok
                rw [except_bind_ok_iff] at hok
                obtain ⟨tail, hrec, heq⟩ := hok
                simp only [Except.ok.injEq] at heq
                rw [← heq]
                have hmem := selectMark_mem _ _ _ hsel
                have hwsz := sizeList_wrapper_lt t fl none MarkKind.emphasis
                  (nonMatchingSiblingIndex (getNodeMarks (PNode.text t fl none))
                    rest) rest (PNode.text t fl none :: rest) hmem (le_refl _)
                have hallw : ∀ n ∈ (PNode.text t fl none ::
                    rest.take (nonMatchingSiblingIndex
                      (getNodeMarks (PNode.text t fl none)) rest)).map
                    (fun s => removeMarkFromNode s MarkKind.emphasis),
                    isPlainTextLeafB n = true := by
                  apply allText_map_removeMark
                  intro n hn
                  rcases List.mem_cons.mp hn with h | h
                  · rw [h]
                    rfl
                  · exact hallrest n (List.mem_of_mem_take h)
                have hw := ih a ha _ wrapped (by omega) hallw hwrec
                have ht := ih a ha _ tail hdropsz halldrop hrec
                show mdListText wrapped ++ mdListText tail =
                  t ++ plateTextConcat rest
                rw [hw, ht, plateTextConcat_map_removeMark,
                  plateTextConcat_cons_text, String.append_assoc,
                  ← plateTextConcat_append, List.take_append_drop]
            | delete =>
                try simp only [] at hok
                rw [except_bind_ok_iff] at hok
                obtain ⟨wrapped, hwrec, hok⟩ := hok
                try simp only [] at hok
                rw [except_bind_ok_iff] at hok
                obtain ⟨tail, hrec, heq⟩ := hok
                simp only [Except.ok.injEq] at heq
                rw [← heq]
                have hmem := selectMark_mem _ _ _ hsel
                have hwsz := sizeList_wrapper_lt t fl none MarkKind.delete
                  (nonMatchingSiblingIndex (getNodeMarks (PNode.text t fl none))
                    rest) rest (PNode.text t fl none :: rest) hmem (le_refl _)
                have hallw : ∀ n ∈ (PNode.text t fl none ::
                    rest.take (nonMatchingSiblingIndex
                      (getNodeMarks (PNode.text t fl none)) rest)).map
                    (fun s => removeMarkFromNode s MarkKind.delete),
                    isPlainTextLeafB n = true := by
                  apply allText_map_removeMark
                  intro n hn
                  rcases List.mem_cons.mp hn with h | h
                  · rw [h]
                    rfl
                  · exact hallrest n (List.mem_of_mem_take h)
                have hw := ih a ha _ wrapped (by omega) hallw hwrec
                have ht := ih a ha _ tail hdropsz halldrop hrec
                show mdListText wrapped ++ mdListText tail =
                  t ++ plateTextConcat rest
                rw [hw, ht, plateTextConcat_map_removeMark,
                  plateTextConcat_cons_text, String.append_assoc,
                  ← plateTextConcat_append, List.take_append_drop]

end TextPreservation

theorem except_bind_ok {α β : Type} (a : α) (f : α → Except String β) :
    (Except.ok a >>= f) = f a := rfl

theorem getNodeMarks_code_mem (t : String) (flags : TextFlags)
    (lk : Option Linkify) (hcode : flags.code = true) :
    MarkKind.inlineCode ∈ getNodeMarks (PNode.text t flags lk) := by
  rcases flags with ⟨b, i, cd, st⟩
  simp only at hcode
  subst hcode
  cases b <;> cases i <;> cases st <;> simp [getNodeMarks]

theorem getNodeMarks_isEmpty_false_of_mem (t : String) (flags : TextFlags)
    (lk : Option Linkify) (m : MarkKind)
    (hmem : m ∈ getNodeMarks (PNode.text t flags lk)) :
    (getNodeMarks (PNode.text t flags lk)).isEmpty = false := by
  cases hmk : getNodeMarks (PNode.text t flags lk) with
  | nil => rw [hmk] at hmem; cases hmem
  | cons x xs => rfl

/-- C1: for a sibling list of exactly three text leaves with flag sets
[bold], [bold], [bold, italic], the stringify-direction mark merge returns
a single strong wrapper containing all three leaves, whose first two
children are plain text nodes and whose third child is an emphasis wrapper
around a plain text node. -/
theorem claim1_mark_run_merge (ext : ExtFns) (field : RichTextField)
    (cb : String → String) (s1 s2 s3 : String) :
    processInlineNodes ext field cb
      [.text s1 ⟨true, false, false, false⟩ none,
       .text s2 ⟨true, false, false, false⟩ none,
       .text s3 ⟨true, true, false, false⟩ none] =
    .ok [.wrapper .strong
      [.text s1, .text s2, .wrapper .emphasis [.text s3]]] := rfl

/-- C2: for a sibling list headed by a text leaf flagged code, when the
mark selected for the run is inlineCode, a run extending past the head
(nonMatchingSiblingIndex nonzero) raises the error about marks inside
inline code, while a head with no matching successor
(nonMatchingSiblingIndex zero) converts without error to an inlineCode
node carrying its text, followed by the converted remainder. -/
theorem claim2_inline_code_exclusive (ext : ExtFns) (field : RichTextField)
    (cb : String → String) (t : String) (flags : TextFlags)
    (lk : Option Linkify) (rest : List PNode)
    (hcode : flags.code = true)
    (hsel : markWithHighestCount (markCounts (getNodeMarks (PNode.text t flags lk))
      ((convertLinksToTextNodes rest).take
        (nonMatchingSiblingIndex (getNodeMarks (PNode.text t flags lk))
          (convertLinksToTextNodes rest)))) = some MarkKind.inlineCode) :
    (nonMatchingSiblingIndex (getNodeMarks (PNode.text t flags lk))
        (convertLinksToTextNodes rest) ≠ 0 →
      processInlineNodes ext field cb (PNode.text t flags lk :: rest) =
        .error "Marks inside inline code are not supported") ∧
    (nonMatchingSiblingIndex (getNodeMarks (PNode.text t flags lk))
        (convertLinksToTextNodes rest) = 0 → lk = none →
      processInlineNodes ext field cb (PNode.text t flags lk :: rest) =
        (processInlineNodes ext field cb rest).map
          fun tail => MdPhrasing.inlineCode t :: tail) := by
  have hne := getNodeMarks_isEmpty_false_of_mem t flags lk MarkKind.inlineCode
    (getNodeMarks_code_mem t flags lk hcode)
  have hconv : convertLinkToTextNode (PNode.text t flags lk) =
      PNode.text t flags lk := rfl
  constructor
  · intro hidx
    simp only [processInlineNodes, processInlineNodesGo]
    rw [convertLinksToTextNodes_cons, hconv]
    simp only []
    rw [if_neg (by simp [hne]), hsel]
    simp only []
    rw [if_pos hidx]
  · intro hidx hlk
    subst hlk
    conv_lhs => rw [processInlineNodes]
    simp only [processInlineNodesGo]
    rw [convertLinksToTextNodes_cons, hconv]
    simp only []
    rw [if_neg (by simp [hne]), hsel]
    simp only []
    rw [if_neg (by simp [hidx]), hidx, List.drop_zero,
      processInlineNodesGo_convert,
      processInlineNodesGo_eq ext field cb _ rest (by
        have e : sizeList (PNode.text t flags none :: rest) =
            nodeSize (PNode.text t flags none) + sizeList rest := rfl
        have hp := nodeSize_pos (PNode.text t flags none)
        omega)]
    cases processInlineNodes ext field cb rest <;> rfl

/-- Witness for C2: two adjacent leaves both flagged code raise the
inline-code mark-conflict error, and a single leaf flagged code converts
to an inlineCode node. -/
theorem claim2_inline_code_exclusive_witness :
    processInlineNodes trivExt sampleField id
        [PNode.text "a" ⟨false, false, true, false⟩ none,
         PNode.text "b" ⟨false, false, true, false⟩ none] =
      .error "Marks inside inline code are not supported" ∧
    processInlineNodes trivExt sampleField id
        [PNode.text "a" ⟨false, false, true, false⟩ none] =
      (processInlineNodes trivExt sampleField id []).map
        (fun tail => MdPhrasing.inlineCode "a" :: tail) :=
  ⟨(claim2_inline_code_exclusive trivExt sampleField id "a"
      ⟨false, false, true, false⟩ none
      [PNode.text "b" ⟨false, false, true, false⟩ none] rfl rfl).1
      (by decide),
   (claim2_inline_code_exclusive trivExt sampleField id "a"
      ⟨false, false, true, false⟩ none [] rfl rfl).2 rfl rfl⟩

/-- C3 counterexample: on the run of two text leaves with flags
[bold, italic], [italic], the spec's selection rule (the mark with the
strictly highest consecutive-from-the-start count wins, ties resolved by
priority) selects emphasis, because emphasis is carried by two consecutive
leaves and bold only by one; but processInlineNodes wraps the run in
strong, because its count loop never records a count below one, making
bold tie with emphasis and win on declaration order. -/
theorem claim3_selection_counterexample :
    specHighestCountMark
        ((getNodeMarks (PNode.text "x" ⟨true, true, false, false⟩ none)).map
          fun m => (m, specConsecutiveCarry m
            [PNode.text "x" ⟨true, true, false, false⟩ none,
             PNode.text "y" ⟨false, true, false, false⟩ none])) =
      some MarkKind.emphasis ∧
    processInlineNodes trivExt sampleField id
        [PNode.text "x" ⟨true, true, false, false⟩ none,
         PNode.text "y" ⟨false, true, false, false⟩ none] =
      .ok [.wrapper .strong [.wrapper .emphasis [.text "x", .text "y"]]] :=
  ⟨rfl, rfl⟩

/-- C3 amended: the counts the merge records are the number of consecutive
matching siblings after the first leaf that still carry the mark, floored
at one (so a mark carried by the first leaf alone ties with a mark carried
by the first leaf and exactly one sibling); among these counts the first
mark in the declaration order strong, emphasis, inlineCode, delete to
attain the highest count is selected, so a count tie between bold and
italic selects strong. -/
theorem claim3_amended_selection (marks : List MarkKind) (ms : List PNode) :
    markCounts marks ms =
      marks.map (fun m => (m, Nat.max 1 (specConsecutiveCarry m ms))) ∧
    markWithHighestCount (markCounts marks ms) =
      specHighestCountMark (markCounts marks ms) ∧
    (markCountFor MarkKind.strong ms = markCountFor MarkKind.emphasis ms →
      markWithHighestCount
        (markCounts [MarkKind.strong, MarkKind.emphasis] ms) =
          some MarkKind.strong) := by
  refine ⟨?_, markWithHighestCount_eq_spec marks ms, ?_⟩
  · simp only [markCounts]
    apply List.map_congr_left
    intro m _
    rw [markCountFor_eq]
  · intro htie
    have hpos := markCountFor_pos MarkKind.strong ms
    simp only [markWithHighestCount, markCounts, List.map_cons, List.map_nil,
      selectMarkLoop]
    rw [if_pos (by omega), if_neg (by omega)]

/-- Witness for C3 amended: on the empty sibling run both counts are one,
a bold and italic tie, and strong is selected. -/
theorem claim3_amended_selection_witness :
    markWithHighestCount
        (markCounts [MarkKind.strong, MarkKind.emphasis] []) =
      some MarkKind.strong :=
  (claim3_amended_selection [MarkKind.strong, MarkKind.emphasis] []).2.2 rfl

/-- C4: a document root whose only child is an invalid-markdown sentinel
stringifies to exactly its raw value, for every field configuration
(including the markdown parser type, whose pipeline is modelled from the
spec) and every image mapper. -/
theorem claim4_invalid_markdown_preserved (ext : ExtFns)
    (field : RichTextField) (cb : String → String) (v : String) :
    stringifyMDX ext (.tree ⟨[PNode.invalidMarkdown v]⟩) field cb =
      .ok (some v) := by
  unfold stringifyMDX
  by_cases h : parserIsMarkdown field
  · rw [if_pos h]
    rfl
  · rw [if_neg h]
    rfl

/-- C5: in the document-to-generic direction, a paragraph whose sole child
is a text leaf with empty string text converts to null and is dropped,
while a paragraph with any other child list converts to a generic
paragraph node over its converted inline children. -/
theorem claim5_empty_paragraph_dropped (ext : ExtFns)
    (field : RichTextField) (cb : String → String) :
    (∀ (flags : TextFlags) (lk : Option Linkify),
      convertBlockElement ext field cb (.p [PNode.text "" flags lk]) =
        .ok none) ∧
    (∀ children : List PNode, isEmptyTextSingleton children = false →
      convertBlockElement ext field cb (.p children) =
        (processInlineNodes ext field cb children).map
          fun xs => some (MdContent.paragraph xs)) := by
  constructor
  · intro flags lk
    rfl
  · intro children h
    unfold convertBlockElement
    simp only []
    rw [if_neg (by simp [h])]
    cases processInlineNodes ext field cb children <;> rfl

/-- Witness for C5: a paragraph over a nonempty text leaf converts to a
paragraph node over the converted leaf. -/
theorem claim5_empty_paragraph_dropped_witness :
    convertBlockElement trivExt sampleField id
        (.p [PNode.text "hi" {} none]) =
      (processInlineNodes trivExt sampleField id
        [PNode.text "hi" {} none]).map
          (fun xs => some (MdContent.paragraph xs)) :=
  (claim5_empty_paragraph_dropped trivExt sampleField id).2
    [PNode.text "hi" {} none] (by decide)

/-- C6: a node kind with no dispatch entry always fails with an error
naming the kind, and is never silently dropped: an unmapped block type in
convertBlockElement, an unmapped inline type at the head of
processInlineNodes, and a list-item content kind other than
lic/blockquote/p/ol/ul in convertBlockContentElement. -/
theorem claim6_unsupported_kinds_error (ext : ExtFns) (field : RichTextField)
    (cb : String → String) :
    (∀ tag : String, convertBlockElement ext field cb (.other tag) =
      .error ("BlockElement: " ++ tag ++ " is not yet supported")) ∧
    (∀ (tag : String) (rest : List PNode),
      tag ∉ ["text", "a", "img", "break", "mdxJsxTextElement", "html_inline"] →
      processInlineNodes ext field cb (PNode.other tag :: rest) =
        .error ("InlineElement: " ++ tag ++ " is not supported")) ∧
    (∀ n : PNode, tagOf n ∉ ["lic", "blockquote", "p", "ol", "ul"] →
      convertBlockContentElement ext field cb n =
        .error ("BlockContentElement: " ++ tagOf n ++ " is not yet supported")) := by
  refine ⟨fun tag => rfl, fun tag rest _ => rfl, fun n h => ?_⟩
  cases n <;> first
    | rfl
    | exact absurd (by simp [tagOf]) h

/-- Witness for C6: concrete unmapped kinds produce the three errors. -/
theorem claim6_unsupported_kinds_error_witness :
    convertBlockElement trivExt sampleField id (.other "marquee") =
      .error "BlockElement: marquee is not yet supported" ∧
    processInlineNodes trivExt sampleField id [PNode.other "blink"] =
      .error "InlineElement: blink is not supported" ∧
    convertBlockContentElement trivExt sampleField id
        (.heading 0 []) =
      .error "BlockContentElement: h1 is not yet supported" :=
  ⟨(claim6_unsupported_kinds_error trivExt sampleField id).1 "marquee",
   (claim6_unsupported_kinds_error trivExt sampleField id).2.1 "blink" []
     (by decide),
   (claim6_unsupported_kinds_error trivExt sampleField id).2.2
     (.heading 0 []) (by decide)⟩

theorem applyShortcodeTemplates_global (ext : ExtFns) :
    ∀ (L : List TemplateOrString) (acc g : String),
      TemplateOrString.str g ∈ L →
      applyShortcodeTemplates ext L acc =
        .error "Global templates are not supported" := by
  intro L
  induction L with
  | nil => intro acc g h; cases h
  | cons q rest ih =>
      intro acc g h
      cases q with
      | str s => rfl
      | tpl tpl =>
          rcases List.mem_cons.mp h with h1 | h2
          · cases h1
          · exact ih _ g h2

/-- C7: a field configuration whose templates list contains a bare-string
(global) template makes the core stringify path fail with the
global-templates error once the tree itself has converted, rather than
silently skipping the template.  The bare string survives the
`template.match` filter because a string's match property is the built-in
method. -/
theorem claim7_global_template_error (ext : ExtFns) (root : RootElement)
    (field : RichTextField) (cb : String → String) (g : String)
    (tree : MdRoot)
    (hparser : parserIsMarkdown field = false)
    (hinv : firstInvalidValue root = none)
    (hconv : createMdastRoot ext root field cb = .ok tree)
    (hmem : TemplateOrString.str g ∈ field.templates.getD []) :
    stringifyMDX ext (.tree root) field cb =
      .error "Global templates are not supported" := by
  unfold stringifyMDX
  rw [if_neg (by simp [hparser]), if_neg (by simp [rootFalsy])]
  try simp only []
  rw [hinv]
  try simp only []
  rw [hconv, except_bind_ok]
  try simp only []
  have hmemf : TemplateOrString.str g ∈
      (field.templates.getD []).filter templateHasMatch :=
    List.mem_filter.mpr ⟨hmem, rfl⟩
  rw [applyShortcodeTemplates_global ext _ _ g hmemf]
  rfl

/-- Witness for C7: a templates list holding one bare-string template makes
stringify of an empty tree fail with the global-templates error. -/
theorem claim7_global_template_error_witness :
    stringifyMDX trivExt (.tree ⟨[]⟩)
        { parser := none, templates := some [TemplateOrString.str "global"] }
        id =
      .error "Global templates are not supported" :=
  claim7_global_template_error trivExt ⟨[]⟩
    { parser := none, templates := some [TemplateOrString.str "global"] }
    id "global" ⟨[]⟩ rfl rfl rfl (by decide)

/-- C8 counterexample: stringifyMDX called with the empty string as its
root returns undefined (the falsy-root check precedes the string check),
so a raw-string root does not always fail with the
expected-an-object error. -/
theorem claim8_string_root_counterexample :
    stringifyMDX trivExt (.str "") sampleField id = .ok none ∧
    stringifyMDX trivExt (.str "") sampleField id ≠
      .error "Expected an object to stringify, but received a string" :=
  ⟨rfl, fun h => Except.noConfusion h⟩

/-- C8 amended: stringifyMDX called with a non-empty raw string as its root
fails with the expected-an-object error (on the markdown-parser path the
failure is the spec-modelled fatal malformed call); an empty-string root is
falsy and returns undefined instead. -/
theorem claim8_string_root_error (ext : ExtFns) (s : String)
    (field : RichTextField) (cb : String → String) (hs : s ≠ "") :
    stringifyMDX ext (.str s) field cb =
      .error "Expected an object to stringify, but received a string" := by
  have hf : rootFalsy (.str s) = false := by
    simp only [rootFalsy]
    exact beq_eq_false_iff_ne.mpr hs
  unfold stringifyMDX
  by_cases h : parserIsMarkdown field
  · rw [if_pos h]
    unfold stringifyMDXNext
    rw [if_neg (by simp [hf])]
    try rfl
  · rw [if_neg h, if_neg (by simp [hf])]
    try rfl

/-- Witness for C8 amended: a concrete non-empty string root errors. -/
theorem claim8_string_root_error_witness :
    stringifyMDX trivExt (.str "hello") sampleField id =
      .error "Expected an object to stringify, but received a string" :=
  claim8_string_root_error trivExt "hello" sampleField id (by decide)

/-- C9: on a sibling list of plain text leaves, whenever processInlineNodes
succeeds, the concatenation of the text values of the leaf text and
inlineCode nodes of the output equals the concatenation of the input
leaves' texts: mark merging rearranges nesting but never loses,
duplicates, or reorders text. -/
theorem claim9_text_preserved (ext : ExtFns) (field : RichTextField)
    (cb : String → String) (c : List PNode) (out : List MdPhrasing)
    (hall : ∀ n ∈ c, isPlainTextLeafB n = true)
    (hok : processInlineNodes ext field cb c = .ok out) :
    mdListText out = plateTextConcat c :=
  processInlineNodesGo_text_concat ext field cb (sizeList c + 1) c out
    (Nat.lt_succ_self _) hall hok

/-- Witness for C9: a concrete three-leaf merge preserves the text. -/
theorem claim9_text_preserved_witness :
    mdListText [.wrapper .strong [.text "ab", .wrapper .emphasis [.text "cd"]],
        .text "ef"] =
      plateTextConcat
        [.text "ab" ⟨true, false, false, false⟩ none,
         .text "cd" ⟨true, true, false, false⟩ none,
         .text "ef" {} none] :=
  claim9_text_preserved trivExt sampleField id
    [.text "ab" ⟨true, false, false, false⟩ none,
     .text "cd" ⟨true, true, false, false⟩ none,
     .text "ef" {} none]
    [.wrapper .strong [.text "ab", .wrapper .emphasis [.text "cd"]],
     .text "ef"]
    (by decide) rfl

/-- C10: stringifyMDX called with a null/absent root returns undefined
rather than raising an error or producing a string, on both the core and
the markdown-parser paths. -/
theorem claim10_null_root_undefined (ext : ExtFns) (field : RichTextField)
    (cb : String → String) :
    stringifyMDX ext .nul field cb = .ok none := by
  unfold stringifyMDX
  by_cases h : parserIsMarkdown field
  · rw [if_pos h]
    rfl
  · rw [if_neg h]
    rfl

end MdxParser
